import Mathlib

/-!
# Verification of go-memsize (`memsize.go`)

A shallow embedding of the recursive size-traversal algorithm of
`GetTotalSize` / `getTotalSize` from `memsize.go`, on a 64-bit target.

Modelling decisions, all taken from the source:

* A `reflect.Value` is modelled by `Memsize.Value`: one constructor per
  `reflect.Kind` group that the `switch` in `getTotalSize` distinguishes.
  Kinds that fall into the `default` branch (arrays, functions, channels,
  complex numbers, `uintptr`, `unsafe.Pointer`) are collapsed into
  `Value.other`, since the code charges them all the same fixed cost and
  never recurses into them.
* Indirection goes through a `Heap`: a pointer holds an optional address
  (`none` is a nil pointer), and the heap maps the address to the referent.
  Slices and maps likewise hold an optional address naming their backing
  store, so that shared backing stores and cyclic graphs are expressible.
  In a non-nil Go value the referent always exists, so heap lookups are
  total functions.
* Every occurrence of `unsafe.Sizeof(v.Interface())` in the source is the
  compile-time size of an `interface{}` value: two platform words,
  16 bytes on a 64-bit target (`interfaceSize`). `unsafe.Sizeof` does not
  evaluate its operand, so this is a constant in every branch.
* The `seen visited` map (`map[uintptr]bool`, mutated in place) becomes an
  explicit `List Nat` of addresses threaded through the recursion in the
  exact depth-first order of the source.
* The `path` argument and `debugPrint` only feed `fmt.Printf`; they never
  influence the computed size, so `path` is dropped and the `Debug` flag is
  modelled in the wrapper `GetTotalSize` as gating a trace output.
* Go recursion carries no fuel; the embedding adds a `fuel : Nat` that
  bounds recursion depth, with `none` meaning the recursion has not
  bottomed out within that depth.  A call of the Go function terminates
  with result `s` iff some fuel returns `some s`, and it diverges iff every
  fuel returns `none`.
* Sizes are `uint64` in Go; they are modelled as `Nat`.  The sums involved
  are bounded by the size of the measured object graph, far below `2^64`
  for any graph realisable in memory, so wraparound is unreachable.
-/

namespace Memsize

/-- Size of an `interface{}` value on a 64-bit target: this is what
`unsafe.Sizeof(v.Interface())` evaluates to in every branch of
`getTotalSize`, since the static type of `v.Interface()` is `interface{}`
(two words: type pointer + data pointer). -/
def interfaceSize : Nat := 16

/-- One platform word on a 64-bit target (8 bytes); also the value of
`v.Type().Size()` for `reflect.Int` / `reflect.Uint`. -/
def wordSize : Nat := 8

/-- `bucketSize := uint64(48)` in the `reflect.Map` branch: the
"approximate bucket overhead" constant. -/
def bucketSize : Nat := 48

/-- Addresses (`uintptr` in the source). -/
abbrev Addr := Nat

/-- A `reflect.Value`, grouped exactly as the `switch` statements of
`getTotalSize` group `reflect.Kind`s. -/
inductive Value where
  /-- a zero `reflect.Value` (`!v.IsValid()`), e.g. `reflect.ValueOf(nil)` -/
  | invalid : Value
  /-- `reflect.Bool` -/
  | bool : Value
  /-- `reflect.Int8`, `reflect.Uint8` -/
  | i8 : Value
  /-- `reflect.Int16`, `reflect.Uint16` -/
  | i16 : Value
  /-- `reflect.Int32`, `reflect.Uint32`, `reflect.Float32` -/
  | i32 : Value
  /-- `reflect.Int64`, `reflect.Uint64`, `reflect.Float64` -/
  | i64 : Value
  /-- `reflect.Int`, `reflect.Uint` (8 bytes on a 64-bit target) -/
  | int : Value
  /-- `reflect.Interface`; `none` is a nil interface, `some e` holds the
  concrete value `v.Elem()` -/
  | iface : Option Value → Value
  /-- `reflect.Ptr`; `none` is nil, `some a` points at `Heap.ptrs a` -/
  | ptr : Option Addr → Value
  /-- `reflect.Slice`; `none` is nil, `some a` names the backing store
  `Heap.slices a` -/
  | slice : Option Addr → Value
  /-- `reflect.String`, carrying `v.Len()`; only the length enters the
  size computation -/
  | str : Nat → Value
  /-- `reflect.Map`; `none` is nil, `some a` names the storage
  `Heap.maps a` -/
  | map : Option Addr → Value
  /-- `reflect.Struct` with its ordered field values -/
  | struct : List Value → Value
  /-- every kind reaching the `default` branch: `reflect.Array`,
  `reflect.Func`, `reflect.Chan`, `reflect.Complex64/128`,
  `reflect.Uintptr`, `reflect.UnsafePointer` -/
  | other : Value


/-- The backing store of a non-nil slice: `v.Cap()`,
`v.Type().Elem().Size()`, and the `v.Len()` elements `v.Index i`. -/
structure SliceObj where
  cap : Nat
  elemSize : Nat
  elems : List Value


/-- The storage of a non-nil map: its key/value entries, in the order the
iterator of `v.MapRange()` yields them. -/
structure MapObj where
  entries : List (Value × Value)


/-- The heap: referents of non-nil pointers, backing stores of non-nil
slices, storage of non-nil maps. -/
structure Heap where
  ptrs : Addr → Value
  slices : Addr → SliceObj
  maps : Addr → MapObj

/-- The `for i := 0; i < v.Len(); i++` loop over elements (and the loop
over struct fields): measure each with `f`, threading the visited list and
accumulating the sizes, propagating non-termination. -/
def runList (f : Value → List Addr → Option (Nat × List Addr)) :
    List Value → List Addr → Option (Nat × List Addr)
  | [], seen => some (0, seen)
  | v :: vs, seen =>
    match f v seen with
    | none => none
    | some (s, seen₁) =>
      match runList f vs seen₁ with
      | none => none
      | some (rest, seen₂) => some (s + rest, seen₂)

/-- The `iter := v.MapRange()` loop: measure key then value of each entry,
threading the visited list, accumulating `keySize + valSize`. -/
def runEntries (f : Value → List Addr → Option (Nat × List Addr)) :
    List (Value × Value) → List Addr → Option (Nat × List Addr)
  | [], seen => some (0, seen)
  | (k, v) :: es, seen =>
    match f k seen with
    | none => none
    | some (ks, seen₁) =>
      match f v seen₁ with
      | none => none
      | some (vs, seen₂) =>
        match runEntries f es seen₂ with
        | none => none
        | some (rest, seen₃) => some (ks + vs + rest, seen₃)

/-- `getTotalSize(v reflect.Value, seen visited, path string) uint64`,
branch for branch.  Returns the computed size together with the final
visited list, or `none` when the recursion does not bottom out within
`fuel` levels. -/
def getTotalSize (h : Heap) : Nat → Value → List Addr → Option (Nat × List Addr)
  | 0, _, _ => none
  | fuel + 1, v, seen =>
    match v with
    | .invalid => some (0, seen)
    | .bool => some (1, seen)
    | .i8 => some (1, seen)
    | .i16 => some (2, seen)
    | .i32 => some (4, seen)
    | .i64 => some (8, seen)
    | .int => some (wordSize, seen)
    | .iface none => some (interfaceSize, seen)
    | .iface (some e) =>
      match getTotalSize h fuel e seen with
      | none => none
      | some (elemSize, seen₁) => some (elemSize + interfaceSize, seen₁)
    | .ptr none => some (interfaceSize, seen)
    | .ptr (some a) =>
      if a ∈ seen then some (interfaceSize, seen)
      else
        match getTotalSize h fuel (h.ptrs a) (a :: seen) with
        | none => none
        | some (elemSize, seen₁) => some (interfaceSize + elemSize, seen₁)
    | .slice none => some (0, seen)
    | .slice (some a) =>
      match runList (getTotalSize h fuel) (h.slices a).elems seen with
      | none => none
      | some (elementsSize, seen₁) =>
        some (interfaceSize + (h.slices a).cap * (h.slices a).elemSize
          + elementsSize, seen₁)
    | .str n => some (interfaceSize + n, seen)
    | .map none => some (0, seen)
    | .map (some a) =>
      match runEntries (getTotalSize h fuel) (h.maps a).entries seen with
      | none => none
      | some (contentSize, seen₁) =>
        some (interfaceSize + ((h.maps a).entries.length / 8 + 1) * bucketSize
          + contentSize, seen₁)
    | .struct fields =>
      match runList (getTotalSize h fuel) fields seen with
      | none => none
      | some (fieldsSize, seen₁) => some (interfaceSize + fieldsSize, seen₁)
    | .other => some (interfaceSize, seen)

/-- The size alone, measured from a fresh visited list (as each top-level
call does). -/
def totalSize (h : Heap) (fuel : Nat) (v : Value) : Option Nat :=
  (getTotalSize h fuel v []).map Prod.fst

/-- `GetTotalSize(v interface{}) uint64`: makes a fresh `visited` map and
calls `getTotalSize`.  The global `Debug` flag is passed explicitly; it
gates only the `fmt.Printf` trace (modelled as the second component) and
takes no part in the size computation, exactly as in the source. -/
def GetTotalSize (debug : Bool) (h : Heap) (fuel : Nat) (v : Value) :
    Option Nat × List Nat :=
  let size := totalSize h fuel v
  (size, if debug then [size.getD 0] else [])

/-- Two successive top-level calls on the same value: each builds its own
fresh visited list (`make(visited)` in the source). -/
def callTwice (debug : Bool) (h : Heap) (fuel : Nat) (v : Value) :
    (Option Nat × List Nat) × (Option Nat × List Nat) :=
  (GetTotalSize debug h fuel v, GetTotalSize debug h fuel v)

/-- A heap with nothing interesting in it, for values that never follow an
address. -/
def emptyHeap : Heap where
  ptrs := fun _ => .invalid
  slices := fun _ => ⟨0, 0, []⟩
  maps := fun _ => ⟨[]⟩

/-- The static width the Type Introspector reports for primitive kinds
(the sizes returned by the first `switch` of `getTotalSize`); `none` for
every non-primitive kind. -/
def primWidth? : Value → Option Nat
  | .bool => some 1
  | .i8 => some 1
  | .i16 => some 2
  | .i32 => some 4
  | .i64 => some 8
  | .int => some wordSize
  | _ => none

/-- The heap of a two-node pointer cycle A→B→A: the record at address 0
holds a pointer to address 1 and vice versa
(`type Node struct { next *Node }`). -/
def cycleHeap : Heap where
  ptrs := fun a => if a = 0 then .struct [.ptr (some 1)] else .struct [.ptr (some 0)]
  slices := fun _ => ⟨0, 0, []⟩
  maps := fun _ => ⟨[]⟩

/-- A heap whose pointers all target a plain 8-byte integer. -/
def i64Heap : Heap where
  ptrs := fun _ => .i64
  slices := fun _ => ⟨0, 0, []⟩
  maps := fun _ => ⟨[]⟩

/-- The heap of `arr := []int64{5}` shared by two slice handles: one
backing store of capacity 1, element size 8, holding one `int64`. -/
def sharedSliceHeap : Heap where
  ptrs := fun _ => .invalid
  slices := fun _ => ⟨1, 8, [.i64]⟩
  maps := fun _ => ⟨[]⟩

/-- A heap with a one-entry map (`map[int8]int8`) at every address. -/
def oneEntryMapHeap : Heap where
  ptrs := fun _ => .invalid
  slices := fun _ => ⟨0, 0, []⟩
  maps := fun _ => ⟨[(.i8, .i8)]⟩

/-- A heap whose slices have capacity 0 but a large static element size,
to show header costs do not depend on the element type's declared size. -/
def bigElemHeap : Heap where
  ptrs := fun _ => .invalid
  slices := fun _ => ⟨0, 1000, []⟩
  maps := fun _ => ⟨[]⟩

/-- The heap of `s := make([]interface{}, 1); s[0] = s`: one slice whose
single element is an interface holding the slice itself
(`[]interface{}` has element size 16). -/
def selfSliceHeap : Heap where
  ptrs := fun _ => .invalid
  slices := fun _ => ⟨1, 16, [.iface (some (.slice (some 0)))]⟩
  maps := fun _ => ⟨[]⟩

/-- The heap of `m := map[string]interface{}{}; m["self"] = m`: one map
whose single entry has a 4-byte string key and, as value, an interface
holding the map itself. -/
def selfMapHeap : Heap where
  ptrs := fun _ => .invalid
  slices := fun _ => ⟨0, 0, []⟩
  maps := fun _ => ⟨[(.str 4, .iface (some (.map (some 0))))]⟩

-- sanity checks while developing
example : getTotalSize emptyHeap 2 (.str 5) [] = some (21, []) := by decide
example : getTotalSize emptyHeap 2 (.struct [.i32, .i64]) [] = some (28, []) := by decide
example : getTotalSize emptyHeap 2 (.ptr none) [] = some (16, []) := by decide
example : getTotalSize emptyHeap 3 (.ptr (some 4)) [] = some (16, [4]) := by decide

/-! ## The visited list only grows

`getTotalSize` inserts into `seen` and never removes (the Go code only ever
writes `seen[addr] = true`), so the visited list at the end of any call
extends the one at its start.  This is the backbone of the
at-most-once-per-call guarantee for pointer payloads. -/

/-- `runList` preserves growth of the visited list. -/
theorem runList_seen_mono
    (f : Value → List Addr → Option (Nat × List Addr))
    (hf : ∀ v seen s seen₁, f v seen = some (s, seen₁) → seen ⊆ seen₁) :
    ∀ vs seen s seen₁, runList f vs seen = some (s, seen₁) → seen ⊆ seen₁ := by
  intro vs
  induction vs with
  | nil =>
    intro seen s seen₁ heq
    simp only [runList, Option.some.injEq, Prod.mk.injEq] at heq
    exact heq.2 ▸ List.Subset.refl seen
  | cons v vs ih =>
    intro seen s seen₁ heq
    simp only [runList] at heq
    cases hfv : f v seen with
    | none => rw [hfv] at heq; simp at heq
    | some p =>
      obtain ⟨s₀, seen₀⟩ := p
      rw [hfv] at heq
      dsimp only at heq
      cases hrest : runList f vs seen₀ with
      | none => rw [hrest] at heq; simp at heq
      | some q =>
        obtain ⟨s₂, seen₂⟩ := q
        rw [hrest] at heq
        simp only [Option.some.injEq, Prod.mk.injEq] at heq
        exact heq.2 ▸ (hf v seen s₀ seen₀ hfv).trans (ih seen₀ s₂ seen₂ hrest)

/-- `runEntries` preserves growth of the visited list. -/
theorem runEntries_seen_mono
    (f : Value → List Addr → Option (Nat × List Addr))
    (hf : ∀ v seen s seen₁, f v seen = some (s, seen₁) → seen ⊆ seen₁) :
    ∀ es seen s seen₁, runEntries f es seen = some (s, seen₁) → seen ⊆ seen₁ := by
  intro es
  induction es with
  | nil =>
    intro seen s seen₁ heq
    simp only [runEntries, Option.some.injEq, Prod.mk.injEq] at heq
    exact heq.2 ▸ List.Subset.refl seen
  | cons e es ih =>
    obtain ⟨k, v⟩ := e
    intro seen s seen₁ heq
    simp only [runEntries] at heq
    cases hfk : f k seen with
    | none => rw [hfk] at heq; simp at heq
    | some p =>
      obtain ⟨ks, seenk⟩ := p
      rw [hfk] at heq
      dsimp only at heq
      cases hfv : f v seenk with
      | none => rw [hfv] at heq; simp at heq
      | some q =>
        obtain ⟨vs, seenv⟩ := q
        rw [hfv] at heq
        dsimp only at heq
        cases hrest : runEntries f es seenv with
        | none => rw [hrest] at heq; simp at heq
        | some r =>
          obtain ⟨rs, seenr⟩ := r
          rw [hrest] at heq
          simp only [Option.some.injEq, Prod.mk.injEq] at heq
          exact heq.2 ▸ ((hf k seen ks seenk hfk).trans
            (hf v seenk vs seenv hfv)).trans (ih seenv rs seenr hrest)

/-- The visited list only grows across any call of `getTotalSize`. -/
theorem getTotalSize_seen_mono (h : Heap) :
    ∀ fuel v seen s seen₁,
      getTotalSize h fuel v seen = some (s, seen₁) → seen ⊆ seen₁ := by
  intro fuel
  induction fuel with
  | zero =>
    intro v seen s seen₁ heq
    simp [getTotalSize] at heq
  | succ fuel ih =>
    intro v seen s seen₁ heq
    cases v with
    | invalid =>
      simp only [getTotalSize, Option.some.injEq, Prod.mk.injEq] at heq
      exact heq.2 ▸ List.Subset.refl seen
    | bool =>
      simp only [getTotalSize, Option.some.injEq, Prod.mk.injEq] at heq
      exact heq.2 ▸ List.Subset.refl seen
    | i8 =>
      simp only [getTotalSize, Option.some.injEq, Prod.mk.injEq] at heq
      exact heq.2 ▸ List.Subset.refl seen
    | i16 =>
      simp only [getTotalSize, Option.some.injEq, Prod.mk.injEq] at heq
      exact heq.2 ▸ List.Subset.refl seen
    | i32 =>
      simp only [getTotalSize, Option.some.injEq, Prod.mk.injEq] at heq
      exact heq.2 ▸ List.Subset.refl seen
    | i64 =>
      simp only [getTotalSize, Option.some.injEq, Prod.mk.injEq] at heq
      exact heq.2 ▸ List.Subset.refl seen
    | int =>
      simp only [getTotalSize, Option.some.injEq, Prod.mk.injEq] at heq
      exact heq.2 ▸ List.Subset.refl seen
    | str n =>
      simp only [getTotalSize, Option.some.injEq, Prod.mk.injEq] at heq
      exact heq.2 ▸ List.Subset.refl seen
    | other =>
      simp only [getTotalSize, Option.some.injEq, Prod.mk.injEq] at heq
      exact heq.2 ▸ List.Subset.refl seen
    | iface oe =>
      cases oe with
      | none =>
        simp only [getTotalSize, Option.some.injEq, Prod.mk.injEq] at heq
        exact heq.2 ▸ List.Subset.refl seen
      | some e =>
        simp only [getTotalSize] at heq
        cases hfe : getTotalSize h fuel e seen with
        | none => rw [hfe] at heq; simp at heq
        | some p =>
          obtain ⟨s₀, seen₀⟩ := p
          rw [hfe] at heq
          simp only [Option.some.injEq, Prod.mk.injEq] at heq
          exact heq.2 ▸ ih e seen s₀ seen₀ hfe
    | ptr oa =>
      cases oa with
      | none =>
        simp only [getTotalSize, Option.some.injEq, Prod.mk.injEq] at heq
        exact heq.2 ▸ List.Subset.refl seen
      | some a =>
        simp only [getTotalSize] at heq
        by_cases hmem : a ∈ seen
        · rw [if_pos hmem] at heq
          simp only [Option.some.injEq, Prod.mk.injEq] at heq
          exact heq.2 ▸ List.Subset.refl seen
        · rw [if_neg hmem] at heq
          cases hfe : getTotalSize h fuel (h.ptrs a) (a :: seen) with
          | none => rw [hfe] at heq; simp at heq
          | some p =>
            obtain ⟨s₀, seen₀⟩ := p
            rw [hfe] at heq
            simp only [Option.some.injEq, Prod.mk.injEq] at heq
            exact heq.2 ▸ (List.subset_cons_self a seen).trans
              (ih (h.ptrs a) (a :: seen) s₀ seen₀ hfe)
    | slice oa =>
      cases oa with
      | none =>
        simp only [getTotalSize, Option.some.injEq, Prod.mk.injEq] at heq
        exact heq.2 ▸ List.Subset.refl seen
      | some a =>
        simp only [getTotalSize] at heq
        cases hfe : runList (getTotalSize h fuel) (h.slices a).elems seen with
        | none => rw [hfe] at heq; simp at heq
        | some p =>
          obtain ⟨s₀, seen₀⟩ := p
          rw [hfe] at heq
          simp only [Option.some.injEq, Prod.mk.injEq] at heq
          exact heq.2 ▸ runList_seen_mono (getTotalSize h fuel) ih
            (h.slices a).elems seen s₀ seen₀ hfe
    | map oa =>
      cases oa with
      | none =>
        simp only [getTotalSize, Option.some.injEq, Prod.mk.injEq] at heq
        exact heq.2 ▸ List.Subset.refl seen
      | some a =>
        simp only [getTotalSize] at heq
        cases hfe : runEntries (getTotalSize h fuel) (h.maps a).entries seen with
        | none => rw [hfe] at heq; simp at heq
        | some p =>
          obtain ⟨s₀, seen₀⟩ := p
          rw [hfe] at heq
          simp only [Option.some.injEq, Prod.mk.injEq] at heq
          exact heq.2 ▸ runEntries_seen_mono (getTotalSize h fuel) ih
            (h.maps a).entries seen s₀ seen₀ hfe
    | struct fields =>
      simp only [getTotalSize] at heq
      cases hfe : runList (getTotalSize h fuel) fields seen with
      | none => rw [hfe] at heq; simp at heq
      | some p =>
        obtain ⟨s₀, seen₀⟩ := p
        rw [hfe] at heq
        simp only [Option.some.injEq, Prod.mk.injEq] at heq
        exact heq.2 ▸ runList_seen_mono (getTotalSize h fuel) ih
          fields seen s₀ seen₀ hfe

/-! ## Cycles that never pass through a pointer are not guarded

Only the `reflect.Ptr` branch consults and extends `seen`.  A cycle closed
through a slice backing store or map storage (reached again via an
interface) therefore never trips the guard, and the recursion never bottoms
out.  In Go this is `s := make([]interface{}, 1); s[0] = s` and
`m := map[string]interface{}{}; m["self"] = m`. -/

/-- On the self-referential slice, no recursion depth suffices: the slice
and the interface wrapping it keep alternating forever. -/
theorem selfSlice_diverges_aux : ∀ fuel seen,
    getTotalSize selfSliceHeap fuel (.slice (some 0)) seen = none ∧
    getTotalSize selfSliceHeap fuel
      (.iface (some (.slice (some 0)))) seen = none := by
  intro fuel
  induction fuel with
  | zero => intro seen; exact ⟨rfl, rfl⟩
  | succ fuel ih =>
    intro seen
    refine ⟨?_, ?_⟩
    · have hv := (ih seen).2
      simp only [getTotalSize, selfSliceHeap] at hv ⊢
      simp [runList, hv]
    · simp [getTotalSize, (ih seen).1]

/-- On the self-referential map, no recursion depth suffices. -/
theorem selfMap_diverges_aux : ∀ fuel, ∀ seen : List Addr,
    getTotalSize selfMapHeap fuel (.map (some 0)) seen = none := by
  intro fuel
  induction fuel using Nat.strong_induction_on with
  | _ fuel ih =>
    match fuel with
    | 0 => intro seen; rfl
    | 1 => intro seen; rfl
    | g + 2 =>
      intro seen
      have hv := ih g (by omega) seen
      simp only [getTotalSize, selfMapHeap] at hv ⊢
      simp [getTotalSize, runEntries, hv]

/-- Claim C1 (code_bug): the claim says `get_total_size` terminates on
every finite-identity graph, and it is what the package documentation
promises ("correctly handles circular references"), but the code only ever
inserts pointer addresses into the visited set.  On the self-referential
slice `s := make([]interface{}, 1); s[0] = s` — a graph with one identity —
the traversal never returns: every recursion depth is exhausted, at any
starting visited list, and the top-level call diverges. -/
theorem C1_self_slice_diverges : ∀ fuel seen,
    getTotalSize selfSliceHeap fuel (.slice (some 0)) seen = none ∧
    totalSize selfSliceHeap fuel (.slice (some 0)) = none := by
  intro fuel seen
  refine ⟨(selfSlice_diverges_aux fuel seen).1, ?_⟩
  simp [totalSize, (selfSlice_diverges_aux fuel []).1]

/-- Claim C9 (code_bug): null and absent inputs do yield 0 as claimed — an
invalid value, a bare nil slice and a bare nil map all measure 0, and the
entry point returns 0 on an absent input — but the final conjunct of the
claim ("accepts any value and always returns a count") is broken by the
code: on the self-referential map `m["self"] = m` the traversal never
returns, because map storage never enters the visited set. -/
theorem C9_null_inputs_zero_but_not_total :
    (∀ (h : Heap) (fuel : Nat) (seen : List Addr),
       getTotalSize h (fuel + 1) .invalid seen = some (0, seen) ∧
       getTotalSize h (fuel + 1) (.slice none) seen = some (0, seen) ∧
       getTotalSize h (fuel + 1) (.map none) seen = some (0, seen)) ∧
    (∀ (d : Bool) (h : Heap) (fuel : Nat),
       (GetTotalSize d h (fuel + 1) .invalid).1 = some 0) ∧
    (∀ fuel : Nat, totalSize selfMapHeap fuel (.map (some 0)) = none) := by
  refine ⟨fun h fuel seen => ⟨rfl, rfl, rfl⟩, fun d h fuel => rfl, fun fuel => ?_⟩
  simp [totalSize, selfMap_diverges_aux fuel []]

/-! ## Per-claim theorems: dedup, constants, formulas -/

/-- One-step unfolding of the `reflect.Struct` branch. -/
theorem getTotalSize_struct (h : Heap) (fuel : Nat) (fields : List Value)
    (seen : List Addr) :
    getTotalSize h (fuel + 1) (.struct fields) seen =
      match runList (getTotalSize h fuel) fields seen with
      | none => none
      | some (fieldsSize, seen₁) => some (interfaceSize + fieldsSize, seen₁) := rfl

/-- A primitive value is charged its static width and leaves the visited
list untouched. -/
theorem primWidth_eval (h : Heap) (fuel : Nat) (f : Value) (w : Nat)
    (seen : List Addr) (hw : primWidth? f = some w) :
    getTotalSize h (fuel + 1) f seen = some (w, seen) := by
  cases f <;> simp [primWidth?] at hw <;> simp [getTotalSize, ← hw]

/-- A list of primitive fields is charged the sum of their static widths. -/
theorem runList_prim (h : Heap) (fuel : Nat) :
    ∀ (fields : List Value) (seen : List Addr),
      (∀ f ∈ fields, (primWidth? f).isSome) →
      runList (getTotalSize h (fuel + 1)) fields seen
        = some ((fields.filterMap primWidth?).sum, seen) := by
  intro fields
  induction fields with
  | nil => intro seen _; simp [runList]
  | cons f fs ih =>
    intro seen hall
    obtain ⟨w, hw⟩ := Option.isSome_iff_exists.mp (hall f (by simp))
    simp only [runList]
    rw [primWidth_eval h fuel f w seen hw]
    dsimp only
    rw [ih seen (fun g hg => hall g (by simp [hg]))]
    simp [List.filterMap_cons, hw]

/-- Claim C2 (counterexample): the payload of a shared *slice* backing
store is charged once per reference, not once per call.  Two slice handles
over the same one-element `[]int64` store measure
`16 (struct) + 2 × 32 (full slice payloads) = 80`, where the claim's
at-most-once contract would allow at most
`16 (struct) + 2 × 16 (handles) + 16 (one payload: 8 array + 8 element)
= 64`. -/
theorem C2_shared_slice_double_charge :
    getTotalSize sharedSliceHeap 4
      (.struct [.slice (some 0), .slice (some 0)]) [] = some (80, []) ∧
    ¬ (80 ≤ 16 + 2 * interfaceSize + 16) := by decide

/-- Claim C2 (amended): only pointer referents are guarded by the visited
set.  A pointer whose address is already in the visited list contributes
exactly its 16-byte handle and adds nothing else; slice, map and interface
payloads are re-measured at every reference (see the counterexample). -/
theorem C2_only_pointer_payload_guarded :
    ∀ (h : Heap) (fuel : Nat) (a : Addr) (seen : List Addr),
      a ∈ seen →
      getTotalSize h (fuel + 1) (.ptr (some a)) seen
        = some (interfaceSize, seen) := by
  intro h fuel a seen hmem
  simp [getTotalSize, hmem]

/-- Witness for `C2_only_pointer_payload_guarded` at a concrete input. -/
theorem C2_only_pointer_payload_guarded_witness :
    getTotalSize sharedSliceHeap 1 (.ptr (some 5)) [5]
      = some (interfaceSize, [5]) :=
  C2_only_pointer_payload_guarded sharedSliceHeap 0 5 [5] (by decide)

/-- Claim C3 (confirmed): pointer deduplication and cycle termination.
First conjunct: whatever the referent's payload measures from a fresh
visited list already containing the pointer's address, a record holding
two pointers to that same address measures
`struct cost (16) + first handle (16) + payload + second handle (16)
= 48 + payload` — the payload is charged once, never twice.  Second
conjunct: the two-node pointer cycle A→B→A terminates with total 80 =
outer handle 16 + record A 16 + inner handle 16 + record B 16 +
already-seen back-pointer handle 16, each node charged exactly once. -/
theorem C3_ptr_dedup_and_cycle_terminates :
    (∀ (h : Heap) (a : Addr) (fuel s : Nat) (seen₁ : List Addr),
        getTotalSize h fuel (h.ptrs a) [a] = some (s, seen₁) →
        getTotalSize h (fuel + 2)
          (.struct [.ptr (some a), .ptr (some a)]) [] = some (48 + s, seen₁)) ∧
    getTotalSize cycleHeap 9 (.ptr (some 0)) [] = some (80, [1, 0]) := by
  refine ⟨?_, by decide⟩
  intro h a fuel s seen₁ hpay
  have hmem : a ∈ seen₁ :=
    getTotalSize_seen_mono h fuel (h.ptrs a) [a] s seen₁ hpay (by simp)
  simp [getTotalSize, runList, hpay, hmem, interfaceSize]
  omega

/-- Witness for `C3_ptr_dedup_and_cycle_terminates`: two pointers to the
same `int64` referent measure 16 + 16 + 8 + 16 = 56. -/
theorem C3_ptr_dedup_and_cycle_terminates_witness :
    getTotalSize i64Heap 3 (.struct [.ptr (some 0), .ptr (some 0)]) []
      = some (56, [0]) := by
  have hc := C3_ptr_dedup_and_cycle_terminates.1 i64Heap 0 1 8 [0] (by decide)
  exact hc.trans (by decide)

/-- Claim C4 (counterexample): the aggregate cost charged for a record is
not the sum of its declared fields' static sizes.  A record of three
8-byte fields measures `16 + 8 + 8 + 8 = 40`, while the claim's formula —
aggregate (24, the field-size sum) plus the three fields' contributions
(24) — demands 48. -/
theorem C4_aggregate_not_field_sum :
    getTotalSize emptyHeap 9 (.struct [.i64, .i64, .i64]) [] = some (40, []) ∧
    ¬ (40 = (8 + 8 + 8) + (8 + 8 + 8)) := by decide

/-- Claim C4 (amended): the aggregate cost charged for a record is the
fixed 16-byte dynamic-wrapper size, independent of its declared fields, so
a record of primitive fields measures `16 + Σ field widths`.  The spec's
worked example (a 4-byte and an 8-byte integer field) measures
`16 + 4 + 8 = 28`, which still satisfies its stated bound `≥ 12 + 4 + 8`. -/
theorem C4_struct_aggregate_is_fixed :
    ∀ (h : Heap) (fuel : Nat) (fields : List Value) (seen : List Addr),
      (∀ f ∈ fields, (primWidth? f).isSome) →
      getTotalSize h (fuel + 2) (.struct fields) seen
        = some (interfaceSize + (fields.filterMap primWidth?).sum, seen) := by
  intro h fuel fields seen hall
  rw [getTotalSize_struct h (fuel + 1) fields seen]
  rw [runList_prim h fuel fields seen hall]

/-- Witness for `C4_struct_aggregate_is_fixed`: the spec's worked record
with a 4-byte and an 8-byte field measures 28. -/
theorem C4_struct_aggregate_is_fixed_witness :
    getTotalSize emptyHeap 10 (.struct [.i32, .i64]) [] = some (28, []) := by
  have hc := C4_struct_aggregate_is_fixed emptyHeap 8 [.i32, .i64] [] (by decide)
  exact hc.trans (by decide)

/-- Claim C5 (counterexample): the handle cost charged for a pointer is
not one platform word.  A nil pointer measures 16 bytes
(`unsafe.Sizeof(v.Interface())`, the interface-wrapper size), not
`wordSize = 8`. -/
theorem C5_nil_ptr_not_one_word :
    getTotalSize emptyHeap 1 (.ptr none) [] = some (16, []) ∧
    ¬ (16 = wordSize) := by decide

/-- Claim C5 (amended): the handle cost charged for a pointer is two
platform words (16 bytes, the interface-wrapper size), and a nil pointer
contributes exactly that handle cost and nothing more, leaving the visited
list untouched. -/
theorem C5_ptr_handle_two_words :
    (∀ (h : Heap) (fuel : Nat) (seen : List Addr),
       getTotalSize h (fuel + 1) (.ptr none) seen = some (interfaceSize, seen)) ∧
    interfaceSize = 2 * wordSize := by
  refine ⟨fun h fuel seen => ?_, rfl⟩
  simp [getTotalSize]

/-- Claim C6 (counterexample): the bucket overhead is not
`48 × ceil(n/8)`.  An empty non-nil map measures
`16 (header) + 48 (one bucket) = 64`, while the claim's formula gives
`16 + 48 × ceil(0/8) = 16`. -/
theorem C6_empty_map_one_bucket :
    getTotalSize emptyHeap 2 (.map (some 0)) [] = some (64, []) ∧
    ¬ (64 = 16) := by decide

/-- Claim C6 (amended): for a non-nil map with `n` entries the charged
bucket overhead is `(⌊n/8⌋ + 1) × 48` — one more bucket than
`ceil(n/8)` whenever `n` is a multiple of 8, including `n = 0` — added to
the 16-byte header and the recursive measure of all keys and values. -/
theorem C6_map_bucket_formula :
    ∀ (h : Heap) (a : Addr) (fuel c : Nat) (seen seen₁ : List Addr),
      runEntries (getTotalSize h fuel) (h.maps a).entries seen = some (c, seen₁) →
      getTotalSize h (fuel + 1) (.map (some a)) seen
        = some (interfaceSize
            + ((h.maps a).entries.length / 8 + 1) * bucketSize + c, seen₁) := by
  intro h a fuel c seen seen₁ hc
  simp only [getTotalSize]
  rw [hc]

/-- Witness for `C6_map_bucket_formula`: a one-entry `map[int8]int8`
measures 16 + 48 + 1 + 1 = 66. -/
theorem C6_map_bucket_formula_witness :
    getTotalSize oneEntryMapHeap 2 (.map (some 0)) [] = some (66, []) := by
  have hc := C6_map_bucket_formula oneEntryMapHeap 0 1 2 [] [] (by decide)
  exact hc.trans (by decide)

/-- Claim C7 (confirmed): the returned total depends only on the measured
value.  The `Debug` toggle gates only the printed trace, never the size
component of the result, and two successive top-level calls on the same
unmutated input — each building its own fresh visited list, as
`GetTotalSize` does — return identical results. -/
theorem C7_debug_independent_and_repeatable :
    ∀ (d₁ d₂ : Bool) (h : Heap) (fuel : Nat) (v : Value),
      (GetTotalSize d₁ h fuel v).1 = (GetTotalSize d₂ h fuel v).1 ∧
      (callTwice d₁ h fuel v).1 = (callTwice d₁ h fuel v).2 :=
  fun _ _ _ _ _ => ⟨rfl, rfl⟩

/-- Claim C8 (confirmed): a string measures its fixed 16-byte header plus
its content byte length; appending `k` bytes therefore increases the
measure by exactly `k`, and a bare string of length 5 measures
header + 5 = 21. -/
theorem C8_string_header_plus_length :
    ∀ (h : Heap) (fuel n k : Nat),
      totalSize h (fuel + 1) (.str n) = some (interfaceSize + n) ∧
      totalSize h (fuel + 1) (.str (n + k)) = some (interfaceSize + n + k) ∧
      totalSize h (fuel + 1) (.str 5) = some (interfaceSize + 5) := by
  intro h fuel n k
  refine ⟨rfl, ?_, rfl⟩
  simp [totalSize, getTotalSize, Nat.add_assoc]

/-- Claim C10 (confirmed): every fixed cost the implementation charges —
string header, slice header, map header, record aggregate, pointer handle
(nil or not, first or repeated visit), interface handle (nil or not), and
the unsupported-shape fallback — is the single constant
`interfaceSize = 16 = 2 × wordSize`, the size of an `interface{}` value,
independent of the concrete type's own declared size (here the slice's
static element size is 1000 and its header is still 16; the map's 64 is
its 16-byte header plus the 48-byte minimum bucket overhead). -/
theorem C10_all_fixed_costs_equal_interfaceSize :
    interfaceSize = 2 * wordSize ∧ interfaceSize = 16 ∧
    getTotalSize bigElemHeap 2 (.str 0) [] = some (interfaceSize, []) ∧
    getTotalSize bigElemHeap 2 (.slice (some 0)) [] = some (interfaceSize, []) ∧
    getTotalSize bigElemHeap 2 (.map (some 0)) []
      = some (interfaceSize + bucketSize, []) ∧
    getTotalSize bigElemHeap 2 (.struct []) [] = some (interfaceSize, []) ∧
    getTotalSize bigElemHeap 2 (.ptr none) [] = some (interfaceSize, []) ∧
    getTotalSize bigElemHeap 2 (.ptr (some 7)) [] = some (interfaceSize, [7]) ∧
    getTotalSize bigElemHeap 2 (.iface none) [] = some (interfaceSize, []) ∧
    getTotalSize bigElemHeap 2 (.iface (some .invalid)) []
      = some (interfaceSize, []) ∧
    getTotalSize bigElemHeap 2 .other [] = some (interfaceSize, []) := by decide

end Memsize
